import Mathlib

/-!
Verification of the openbbox core against its specification.

The Python sources are shallowly embedded as Lean definitions:

* raw text is modelled by its list of lines, i.e. the result of Python's
  `raw.split("\n")` (so concatenating two texts with a `"\n"` separator
  corresponds to appending the two line lists, and concatenating them
  directly merges the last line of the first with the first line of the
  second);
* Python `str` operations (`startswith`, `strip`, regex scans) are given
  explicit executable definitions over the character list of the string;
* `datetime` values are modelled as rational timestamps counted in seconds,
  and `float` scores as exact rationals;
* fallible collaborator calls (the git repository layer) return
  `Except GitErr`.
-/

namespace OpenBBox

/-! ## Python string primitives -/

/-- Python `line.startswith(p)`: `p` is a character-list prefix of `l`. -/
def pyStartsWith (l p : String) : Bool :=
  p.toList.isPrefixOf l.toList

/-- Python whitespace test for one character (ASCII subset actually used). -/
def pyIsSpace (c : Char) : Bool :=
  c = ' ' || c = '\t' || c = '\n' || c = '\r' || c = '\x0b' || c = '\x0c'

/-- Python `s.strip()` on a character list: drop whitespace on both ends. -/
def stripChars (cs : List Char) : List Char :=
  ((cs.dropWhile pyIsSpace).reverse.dropWhile pyIsSpace).reverse

/-- Python `s.strip()`. -/
def pyStrip (s : String) : String :=
  String.mk (stripChars s.toList)

/-- A line whose characters are all whitespace (so Python's `line.strip()`
is empty); the empty line is blank. -/
def isBlankLine (l : String) : Bool :=
  l.toList.all pyIsSpace

/-- Python `"\n".join(lines)`. -/
def joinNl (ls : List String) : String :=
  String.intercalate "\n" ls

/-! ## `core/diff_parser.py` : `parse_unified_diff`

The parser is a line-scanning state machine.  `FileDiffM` embeds
`core.models.FileDiff`. -/

/-- `core.models.FileDiff`. -/
structure FileDiffM where
  file_path : String
  hunk : String
  change_type : String
  deriving DecidableEq, Repr

/-- A hunk-content line: starts with `"@@"`, `"+"`, `"-"` or `" "`
(`diff_parser.py` line 109). -/
def isHunkLine (l : String) : Bool :=
  pyStartsWith l "@@" || pyStartsWith l "+" || pyStartsWith l "-" || pyStartsWith l " "

/-- A file-boundary marker line (`line.startswith("diff --git")`). -/
def isBoundaryLine (l : String) : Bool :=
  pyStartsWith l "diff --git"

/-- The scan of `re.search(r"b/(.+)$", line)` : the leftmost position with
`'b'`, `'/'` and at least one further character; the capture group is the
whole remainder of the line. -/
def scanPathB : List Char → Option (List Char)
  | 'b' :: '/' :: c :: rest => some (c :: rest)
  | _ :: rest => scanPathB rest
  | [] => none

/-- `match.group(1) if match else ""` for the boundary line of
`diff_parser.parse_unified_diff`. -/
def extractPathB (l : String) : String :=
  match scanPathB l.toList with
  | some cs => String.mk cs
  | none => ""

/-- Parser state of the loop in `parse_unified_diff`
(`results`, `current_file`, `current_lines`, `change_type`). -/
structure ParseSt where
  results : List FileDiffM
  current_file : String
  current_lines : List String
  change_type : String
  deriving Repr

/-- Close the open file record: emit a `FileDiff` only when a file is open
and it accumulated at least one hunk line. -/
def closeFile (st : ParseSt) : List FileDiffM :=
  if st.current_file ≠ "" ∧ st.current_lines ≠ [] then
    st.results ++ [⟨st.current_file, joinNl st.current_lines, st.change_type⟩]
  else st.results

/-- One iteration of the `for line in raw_diff.split("\n")` loop of
`parse_unified_diff` (lines 90–110 of `diff_parser.py`). -/
def parseStep (st : ParseSt) (line : String) : ParseSt :=
  if isBoundaryLine line then
    ⟨closeFile st, extractPathB line, [], "modified"⟩
  else if pyStartsWith line "new file" then
    ⟨st.results, st.current_file, st.current_lines, "added"⟩
  else if pyStartsWith line "deleted file" then
    ⟨st.results, st.current_file, st.current_lines, "deleted"⟩
  else if pyStartsWith line "rename from" then
    ⟨st.results, st.current_file, st.current_lines, "renamed"⟩
  else if isHunkLine line ∧ st.current_file ≠ "" then
    ⟨st.results, st.current_file, st.current_lines ++ [line], st.change_type⟩
  else st

/-- The loop plus the final flush, without the initial emptiness guard. -/
def parseLinesRaw (lns : List String) : List FileDiffM :=
  closeFile (lns.foldl parseStep ⟨[], "", [], "modified"⟩)

/-- `parse_unified_diff`, over the line list of the raw text.  The guard
`if not raw_diff or not raw_diff.strip(): return []` corresponds to every
line being blank. -/
def parse_unified_diff (lns : List String) : List FileDiffM :=
  if lns.all isBlankLine then [] else parseLinesRaw lns

/-! ### Section decomposition of a diff text

`splitSections` cuts a line list at its `diff --git` boundary lines: it
returns the preamble (lines before the first boundary) and the list of
sections, each made of its boundary line and the body up to the next
boundary.  This is spec-level structure used to state what the parser
emits. -/

/-- One `diff --git` section: the boundary line and the following body. -/
structure DiffSection where
  header : String
  body : List String
  deriving DecidableEq, Repr

/-- Split a line list into the preamble and the boundary-delimited sections,
in source order. -/
def splitSections : List String → List String × List DiffSection
  | [] => ([], [])
  | l :: rest =>
    let r := splitSections rest
    if isBoundaryLine l then ([], ⟨l, r.1⟩ :: r.2)
    else (l :: r.1, r.2)

/-- Kind-marker update performed by one body line
(`new file` / `deleted file` / `rename from`). -/
def ctypeStep (t : String) (l : String) : String :=
  if pyStartsWith l "new file" then "added"
  else if pyStartsWith l "deleted file" then "deleted"
  else if pyStartsWith l "rename from" then "renamed"
  else t

/-- The change kind a section ends with. -/
def ctypeOf (body : List String) : String :=
  body.foldl ctypeStep "modified"

/-- The hunk lines a section accumulates: hunk-prefixed body lines, and
nothing when the boundary line yielded no path. -/
def accumulatedHunks (s : DiffSection) : List String :=
  if extractPathB s.header ≠ "" then s.body.filter isHunkLine else []

/-- The `FileDiff` a single section contributes, if any: it must have a
non-empty extracted path and at least one accumulated hunk line. -/
def emitSection (s : DiffSection) : Option FileDiffM :=
  if extractPathB s.header ≠ "" ∧ s.body.filter isHunkLine ≠ [] then
    some ⟨extractPathB s.header, joinNl (s.body.filter isHunkLine), ctypeOf s.body⟩
  else none

/-! ### Characterization of the parser by sections -/

/-- What the final flush will emit for the currently open file after also
scanning the lines `pre` (which contain no boundary line). -/
def closeOpen (cf : String) (cl : List String) (ct : String) (pre : List String) :
    Option FileDiffM :=
  let cl' := cl ++ (if cf ≠ "" then pre.filter isHunkLine else [])
  if cf ≠ "" ∧ cl' ≠ [] then some ⟨cf, joinNl cl', pre.foldl ctypeStep ct⟩ else none

lemma startsWith_head {l p : String} {c : Char} {cs : List Char}
    (hp : p.toList = c :: cs) (h : pyStartsWith l p = true) :
    l.toList.head? = some c := by
  unfold pyStartsWith at h
  rw [hp] at h
  cases hl : l.toList with
  | nil => rw [hl] at h; simp [List.isPrefixOf] at h
  | cons a as =>
    rw [hl] at h
    simp [List.isPrefixOf] at h
    simp [h.1]

lemma startsWith_false_of_head {l p : String} {c c' : Char} {cs : List Char}
    (hp : p.toList = c :: cs) (hl : l.toList.head? = some c') (hne : c ≠ c') :
    pyStartsWith l p = false := by
  rcases Bool.eq_false_or_eq_true (pyStartsWith l p) with h | h
  · have := startsWith_head hp h
    rw [hl] at this
    exact absurd (Option.some_injective _ this) (fun e => hne e.symm)
  · exact h

lemma isHunkLine_false_of_marker {l : String} {c : Char}
    (hc : l.toList.head? = some c)
    (h1 : c ≠ '@') (h2 : c ≠ '+') (h3 : c ≠ '-') (h4 : c ≠ ' ') :
    isHunkLine l = false := by
  unfold isHunkLine
  rw [startsWith_false_of_head (p := "@@") rfl hc (Ne.symm h1),
    startsWith_false_of_head (p := "+") rfl hc (Ne.symm h2),
    startsWith_false_of_head (p := "-") rfl hc (Ne.symm h3),
    startsWith_false_of_head (p := " ") rfl hc (Ne.symm h4)]
  rfl

lemma isHunkLine_false_newfile {l : String} (h : pyStartsWith l "new file" = true) :
    isHunkLine l = false :=
  isHunkLine_false_of_marker (startsWith_head rfl h)
    (by decide) (by decide) (by decide) (by decide)

lemma isHunkLine_false_deleted {l : String} (h : pyStartsWith l "deleted file" = true) :
    isHunkLine l = false :=
  isHunkLine_false_of_marker (startsWith_head rfl h)
    (by decide) (by decide) (by decide) (by decide)

lemma isHunkLine_false_rename {l : String} (h : pyStartsWith l "rename from" = true) :
    isHunkLine l = false :=
  isHunkLine_false_of_marker (startsWith_head rfl h)
    (by decide) (by decide) (by decide) (by decide)

lemma emitSection_eq_closeOpen (s : DiffSection) :
    emitSection s = closeOpen (extractPathB s.header) [] "modified" s.body := by
  unfold emitSection closeOpen ctypeOf
  by_cases hf : extractPathB s.header ≠ ""
  · simp [hf]
  · simp [hf]

lemma closeFile_eq (res : List FileDiffM) (cf : String) (cl : List String) (ct : String) :
    closeFile ⟨res, cf, cl, ct⟩ = res ++ (closeOpen cf cl ct []).toList := by
  unfold closeFile closeOpen
  by_cases h : cf ≠ "" ∧ cl ≠ []
  · simp [h.1, h.2]
  · rw [not_and_or] at h
    rcases h with h | h <;> simp at h <;> simp [h]

lemma foldl_parseStep_eq (lns : List String) :
    ∀ (res : List FileDiffM) (cf : String) (cl : List String) (ct : String),
    closeFile (lns.foldl parseStep ⟨res, cf, cl, ct⟩)
      = res ++ (closeOpen cf cl ct (splitSections lns).1).toList
          ++ ((splitSections lns).2.filterMap emitSection) := by
  induction lns with
  | nil =>
    intro res cf cl ct
    simp [splitSections, closeFile_eq]
  | cons l rest ih =>
    intro res cf cl ct
    by_cases hb : isBoundaryLine l
    · rw [List.foldl_cons]
      have hstep : parseStep ⟨res, cf, cl, ct⟩ l
          = ⟨closeFile ⟨res, cf, cl, ct⟩, extractPathB l, [], "modified"⟩ := by
        unfold parseStep; simp [hb]
      rw [hstep, ih]
      simp only [splitSections, hb, if_pos]
      rw [closeFile_eq]
      rw [List.filterMap_cons]
      rw [emitSection_eq_closeOpen]
      cases hE : closeOpen (extractPathB l) [] "modified" (splitSections rest).1 <;>
        simp [hE]
    · -- non-boundary line: it joins the preamble of the tail decomposition
      have hsplit : splitSections (l :: rest)
          = (l :: (splitSections rest).1, (splitSections rest).2) := by
        simp only [splitSections, hb, if_neg, Bool.false_eq_true, not_false_iff]
      rw [List.foldl_cons, hsplit]
      by_cases hn : pyStartsWith l "new file"
      · have hstep : parseStep ⟨res, cf, cl, ct⟩ l = ⟨res, cf, cl, "added"⟩ := by
          unfold parseStep; simp [hb, hn]
        rw [hstep, ih]
        have hco : closeOpen cf cl ct (l :: (splitSections rest).1)
            = closeOpen cf cl "added" (splitSections rest).1 := by
          unfold closeOpen
          rw [List.filter_cons_of_neg (by simp [isHunkLine_false_newfile hn]),
            List.foldl_cons]
          have : ctypeStep ct l = "added" := by unfold ctypeStep; simp [hn]
          rw [this]
        rw [hco]
      · by_cases hd : pyStartsWith l "deleted file"
        · have hstep : parseStep ⟨res, cf, cl, ct⟩ l = ⟨res, cf, cl, "deleted"⟩ := by
            unfold parseStep; simp [hb, hn, hd]
          rw [hstep, ih]
          have hco : closeOpen cf cl ct (l :: (splitSections rest).1)
              = closeOpen cf cl "deleted" (splitSections rest).1 := by
            unfold closeOpen
            rw [List.filter_cons_of_neg (by simp [isHunkLine_false_deleted hd]),
              List.foldl_cons]
            have : ctypeStep ct l = "deleted" := by unfold ctypeStep; simp [hn, hd]
            rw [this]
          rw [hco]
        · by_cases hr : pyStartsWith l "rename from"
          · have hstep : parseStep ⟨res, cf, cl, ct⟩ l = ⟨res, cf, cl, "renamed"⟩ := by
              unfold parseStep; simp [hb, hn, hd, hr]
            rw [hstep, ih]
            have hco : closeOpen cf cl ct (l :: (splitSections rest).1)
                = closeOpen cf cl "renamed" (splitSections rest).1 := by
              unfold closeOpen
              rw [List.filter_cons_of_neg (by simp [isHunkLine_false_rename hr]),
                List.foldl_cons]
              have : ctypeStep ct l = "renamed" := by unfold ctypeStep; simp [hn, hd, hr]
              rw [this]
            rw [hco]
          · have hct : ctypeStep ct l = ct := by unfold ctypeStep; simp [hn, hd, hr]
            by_cases hh : isHunkLine l ∧ cf ≠ ""
            · have hstep : parseStep ⟨res, cf, cl, ct⟩ l = ⟨res, cf, cl ++ [l], ct⟩ := by
                unfold parseStep; simp [hb, hn, hd, hr, hh.1, hh.2]
              rw [hstep, ih]
              have hco : closeOpen cf cl ct (l :: (splitSections rest).1)
                  = closeOpen cf (cl ++ [l]) ct (splitSections rest).1 := by
                unfold closeOpen
                rw [List.filter_cons_of_pos (by simp [hh.1]), List.foldl_cons, hct]
                simp [hh.2]
              rw [hco]
            · have hstep : parseStep ⟨res, cf, cl, ct⟩ l = ⟨res, cf, cl, ct⟩ := by
                unfold parseStep
                simp only [hb, Bool.false_eq_true, if_false, hn, hd, hr]
                rw [if_neg hh]
              rw [hstep, ih]
              have hco : closeOpen cf cl ct (l :: (splitSections rest).1)
                  = closeOpen cf cl ct (splitSections rest).1 := by
                unfold closeOpen
                rw [List.foldl_cons, hct]
                by_cases hcf : cf ≠ ""
                · have hhl : isHunkLine l = false := by
                    rcases Bool.eq_false_or_eq_true (isHunkLine l) with h | h
                    · exact absurd ⟨h, hcf⟩ hh
                    · exact h
                  rw [List.filter_cons_of_neg (by simp [hhl])]
                · simp [hcf]
              rw [hco]

lemma blank_not_boundary {l : String} (h : isBlankLine l = true) :
    isBoundaryLine l = false := by
  rcases Bool.eq_false_or_eq_true (isBoundaryLine l) with hb | hb
  · have hd := startsWith_head (p := "diff --git") rfl hb
    unfold isBlankLine at h
    cases hl : l.toList with
    | nil => rw [hl] at hd; simp at hd
    | cons a as =>
      rw [hl] at hd h
      simp at hd
      simp [List.all_cons] at h
      rw [hd] at h
      simp [pyIsSpace] at h
  · exact hb

lemma splitSections_blank {lns : List String} (h : lns.all isBlankLine = true) :
    splitSections lns = (lns, []) := by
  induction lns with
  | nil => simp [splitSections]
  | cons l rest ih =>
    simp only [List.all_cons, Bool.and_eq_true] at h
    simp only [splitSections, blank_not_boundary h.1, Bool.false_eq_true, if_false,
      ih h.2]

/-- The parser emits exactly one `FileDiff` per `diff --git` section that
accumulated at least one hunk line, in source order. -/
theorem parse_eq_sections (lns : List String) :
    parse_unified_diff lns = ((splitSections lns).2).filterMap emitSection := by
  unfold parse_unified_diff
  by_cases hB : lns.all isBlankLine = true
  · rw [if_pos hB, splitSections_blank hB]
    simp
  · rw [if_neg hB]
    unfold parseLinesRaw
    rw [foldl_parseStep_eq]
    simp [closeOpen]

/-- A section contributes an entry iff it accumulated at least one hunk line. -/
lemma emitSection_isSome_iff (s : DiffSection) :
    (emitSection s).isSome = true ↔ accumulatedHunks s ≠ [] := by
  unfold emitSection accumulatedHunks
  by_cases hf : extractPathB s.header ≠ ""
  · by_cases hl : s.body.filter isHunkLine ≠ [] <;> simp [hf, hl]
  · simp [hf]

lemma length_filterMap_of_all_isSome {α β : Type} (f : α → Option β) (l : List α)
    (h : ∀ x ∈ l, (f x).isSome = true) : (l.filterMap f).length = l.length := by
  induction l with
  | nil => simp
  | cons a t ih =>
    have ha := h a (by simp)
    rcases Option.isSome_iff_exists.mp ha with ⟨b, hb⟩
    rw [List.filterMap_cons, hb]
    simp only [List.length_cons]
    rw [ih (fun x hx => h x (by simp [hx]))]

/-! ### Appending diff texts -/

lemma splitSections_cons (l : String) (rest : List String) :
    splitSections (l :: rest)
      = if isBoundaryLine l
          then ([], ⟨l, (splitSections rest).1⟩ :: (splitSections rest).2)
          else (l :: (splitSections rest).1, (splitSections rest).2) := by
  by_cases h : isBoundaryLine l <;> simp [splitSections, h]

lemma splitSections_append_boundary (l1 : List String) {l2 : List String}
    {h2 : String} {t2 : List String} (hl2 : l2 = h2 :: t2)
    (hb : isBoundaryLine h2 = true) :
    splitSections (l1 ++ l2)
      = ((splitSections l1).1, (splitSections l1).2 ++ (splitSections l2).2) := by
  induction l1 with
  | nil =>
    subst hl2
    simp [splitSections, hb]
  | cons a l1' ih =>
    rw [List.cons_append, splitSections_cons, splitSections_cons, ih]
    by_cases ha : isBoundaryLine a <;> simp [ha]

lemma parseStep_empty (st : ParseSt) : parseStep st "" = st := by
  have h1 : isBoundaryLine "" = false := by decide
  have h2 : pyStartsWith "" "new file" = false := by decide
  have h3 : pyStartsWith "" "deleted file" = false := by decide
  have h4 : pyStartsWith "" "rename from" = false := by decide
  have h5 : isHunkLine "" = false := by decide
  unfold parseStep
  simp [h1, h2, h3, h4, h5]

lemma foldl_parseStep_empties {l2 : List String} (h : ∀ l ∈ l2, l = "") :
    ∀ st : ParseSt, l2.foldl parseStep st = st := by
  induction l2 with
  | nil => intro st; rfl
  | cons a t ih =>
    intro st
    have ha : a = "" := h a (by simp)
    rw [List.foldl_cons, ha, parseStep_empty]
    exact ih (fun l hl => h l (by simp [hl])) st

/-- Text used in the counterexample: string concatenation of two texts, at
the line level — the last line of the first text merges with the first line
of the second. -/
def concatTexts : List String → List String → List String
  | [], b => b
  | [a], [] => [a]
  | [a], b :: tb => (a ++ b) :: tb
  | a :: ta, b => a :: concatTexts ta b

/-- Claim C6 as stated is false: concatenating two unified diff texts
directly (no newline between them) merges the last hunk line of the first
with the boundary line of the second, so the entry counts do not add.
`d1 = "diff --git a/x b/x\n+a"` and `d2 = "diff --git a/y b/y\n+b"` each
parse to one entry, but their concatenation parses to one entry, not two. -/
theorem parse_concat_count_counterexample :
    (parse_unified_diff
        (concatTexts ["diff --git a/x b/x", "+a"] ["diff --git a/y b/y", "+b"])).length
      ≠ (parse_unified_diff ["diff --git a/x b/x", "+a"]).length
          + (parse_unified_diff ["diff --git a/y b/y", "+b"]).length := by
  decide

/-- Amended C6: when the two texts are joined with a newline separator
(so the line lists append) and the second text is empty or begins with a
file-boundary marker — as `get_combined_diff` does for the staged and
unstaged texts — the `FileDiff` count of the concatenation is the sum of
the separate counts. -/
theorem parse_concat_count_amended (l1 l2 : List String)
    (h : (∀ l ∈ l2, l = "") ∨ (∃ h2 t2, l2 = h2 :: t2 ∧ isBoundaryLine h2 = true)) :
    (parse_unified_diff (l1 ++ l2)).length
      = (parse_unified_diff l1).length + (parse_unified_diff l2).length := by
  rcases h with hbl | ⟨h2, t2, hl2, hb⟩
  · have hl2blank : l2.all isBlankLine = true := by
      rw [List.all_eq_true]
      intro l hl
      rw [hbl l hl]
      decide
    have hparse2 : parse_unified_diff l2 = [] := by
      unfold parse_unified_diff
      rw [if_pos hl2blank]
    rw [hparse2]
    by_cases hall : l1.all isBlankLine = true
    · have h12 : (l1 ++ l2).all isBlankLine = true := by
        rw [List.all_append, hall, hl2blank]; rfl
      unfold parse_unified_diff
      rw [if_pos hall, if_pos h12]
      rfl
    · have h12 : (l1 ++ l2).all isBlankLine = false := by
        rw [List.all_append, hl2blank]
        simp [hall]
      unfold parse_unified_diff
      rw [if_neg (by simp [h12]), if_neg (by simp [hall])]
      unfold parseLinesRaw
      rw [List.foldl_append, foldl_parseStep_empties hbl]
      simp
  · rw [parse_eq_sections, parse_eq_sections, parse_eq_sections,
      splitSections_append_boundary l1 hl2 hb]
    simp [List.filterMap_append]

/-- Witness: the amended statement at the concrete staged/unstaged pair of
texts, joined with a newline. -/
theorem parse_concat_count_amended_witness :
    (parse_unified_diff
        (["diff --git a/x b/x", "+a"] ++ ["diff --git a/y b/y", "+b"])).length
      = (parse_unified_diff ["diff --git a/x b/x", "+a"]).length
          + (parse_unified_diff ["diff --git a/y b/y", "+b"]).length := by
  exact parse_concat_count_amended _ _
    (Or.inr ⟨"diff --git a/y b/y", ["+b"], rfl, by decide⟩)

/-- Claim C4: the parser emits one `FileDiff` per `diff --git` section that
accumulated at least one hunk line, in source order; a section with zero
accumulated hunk lines yields no entry; when every one of the N boundary
sections accumulates at least one hunk line, exactly N entries result. -/
theorem parse_emits_per_hunked_section (lns : List String) :
    parse_unified_diff lns = ((splitSections lns).2).filterMap emitSection
      ∧ (∀ s ∈ (splitSections lns).2, accumulatedHunks s = [] → emitSection s = none)
      ∧ ((∀ s ∈ (splitSections lns).2, accumulatedHunks s ≠ []) →
          (parse_unified_diff lns).length = (splitSections lns).2.length) := by
  refine ⟨parse_eq_sections lns, ?_, ?_⟩
  · intro s _ hacc
    rcases Option.eq_none_or_eq_some (emitSection s) with h | ⟨fd, h⟩
    · exact h
    · have : (emitSection s).isSome = true := by rw [h]; rfl
      exact absurd ((emitSection_isSome_iff s).mp this) (by simp [hacc])
  · intro hall
    rw [parse_eq_sections lns]
    exact length_filterMap_of_all_isSome emitSection _
      (fun s hs => (emitSection_isSome_iff s).mpr (hall s hs))

/-- Witness: a two-section diff text with one hunk line per section yields
exactly two entries. -/
theorem parse_emits_per_hunked_section_witness :
    (parse_unified_diff
        ["diff --git a/x b/x", "+a", "diff --git a/y b/y", "@@ -1 +1 @@"]).length
      = (splitSections
          ["diff --git a/x b/x", "+a", "diff --git a/y b/y", "@@ -1 +1 @@"]).2.length := by
  exact (parse_emits_per_hunked_section _).2.2 (by decide)

lemma isHunkLine_of_fileHeader {l : String}
    (h : (pyStartsWith l "---" || pyStartsWith l "+++") = true) :
    isHunkLine l = true := by
  rcases Bool.or_eq_true_iff.mp h with h | h
  · have hm : pyStartsWith l "-" = true := by
      unfold pyStartsWith at h ⊢
      rw [List.isPrefixOf_iff_prefix] at h ⊢
      exact List.IsPrefix.trans (by decide) h
    unfold isHunkLine
    rw [hm]
    simp
  · have hm : pyStartsWith l "+" = true := by
      unfold pyStartsWith at h ⊢
      rw [List.isPrefixOf_iff_prefix] at h ⊢
      exact List.IsPrefix.trans (by decide) h
    unfold isHunkLine
    rw [hm]
    simp

/-- Claim C10: old/new file-header lines (`---` / `+++`) count as hunk
lines: a section whose body consists only of such header lines (with a
parseable path) is emitted, and every emitted entry's hunk is the join of
its section's hunk lines, which contain each `---`/`+++` line verbatim. -/
theorem file_header_lines_are_hunk_lines (lns : List String) (s : DiffSection)
    (hs : s ∈ (splitSections lns).2) :
    ((extractPathB s.header ≠ "" ∧ s.body ≠ [] ∧
        (∀ l ∈ s.body, (pyStartsWith l "---" || pyStartsWith l "+++") = true)) →
      ∃ fd, emitSection s = some fd ∧ fd ∈ parse_unified_diff lns)
    ∧ (∀ fd, emitSection s = some fd →
        fd.hunk = joinNl (s.body.filter isHunkLine) ∧
        (∀ l ∈ s.body, (pyStartsWith l "---" || pyStartsWith l "+++") = true →
          l ∈ s.body.filter isHunkLine)) := by
  constructor
  · rintro ⟨hf, hne, hall⟩
    have hfilter : s.body.filter isHunkLine = s.body :=
      List.filter_eq_self.mpr (fun l hl => isHunkLine_of_fileHeader (hall l hl))
    have hemit : emitSection s
        = some ⟨extractPathB s.header, joinNl (s.body.filter isHunkLine), ctypeOf s.body⟩ := by
      unfold emitSection
      rw [if_pos ⟨hf, by rw [hfilter]; exact hne⟩]
    refine ⟨_, hemit, ?_⟩
    rw [parse_eq_sections lns]
    exact List.mem_filterMap.mpr ⟨s, hs, hemit⟩
  · intro fd hfd
    unfold emitSection at hfd
    by_cases hc : extractPathB s.header ≠ "" ∧ s.body.filter isHunkLine ≠ []
    · rw [if_pos hc] at hfd
      refine ⟨by rw [← Option.some_injective _ hfd], ?_⟩
      intro l hl hhdr
      exact List.mem_filter.mpr ⟨hl, isHunkLine_of_fileHeader hhdr⟩
    · rw [if_neg hc] at hfd
      exact absurd hfd (by simp)

/-- Witness: a section holding only `---`/`+++` header lines is emitted,
and the headers appear in its hunk. -/
theorem file_header_lines_are_hunk_lines_witness :
    ∃ fd, emitSection ⟨"diff --git a/x b/x", ["--- a/x", "+++ b/x"]⟩ = some fd
      ∧ fd ∈ parse_unified_diff ["diff --git a/x b/x", "--- a/x", "+++ b/x"] := by
  exact (file_header_lines_are_hunk_lines
      ["diff --git a/x b/x", "--- a/x", "+++ b/x"]
      ⟨"diff --git a/x b/x", ["--- a/x", "+++ b/x"]⟩ (by decide)).1
    (by refine ⟨by decide, by decide, ?_⟩; decide)

/-! ## `core/matcher.py` : scoring

Timestamps are rationals counted in seconds; float arithmetic is modelled
exactly in `ℚ`. -/

/-- `adapters.base.RawConversation` (a `None` context-file list behaves like
`[]` everywhere the matcher reads it, so both are modelled as `[]`). -/
structure RawConversationM where
  timestamp : ℚ
  prompt : String
  response : String
  model_name : String
  session_id : String
  context_files : List String
  project_name : String
  project_path : String
  deriving DecidableEq

/-- `adapters.git_observer.FileChangeEvent`. -/
structure FileChangeEventM where
  file_path : String
  change_type : String
  timestamp : ℚ
  deriving DecidableEq

/-- A character of the regex class `[a-zA-Z0-9_]`. -/
def isWordChar (c : Char) : Bool :=
  c.isAlpha || c.isDigit || c = '_'

/-- A character of the regex class `[a-zA-Z_]`. -/
def isWordStart (c : Char) : Bool :=
  c.isAlpha || c = '_'

/-- The matches the regex `[a-zA-Z_][a-zA-Z0-9_]{2,}` finds inside one
maximal word-character run: the suffix from the first letter/underscore, if
at least three characters remain. -/
def tokenFromRun (run : List Char) : List String :=
  let r := run.dropWhile (fun c => !isWordStart c)
  if 3 ≤ r.length then [String.mk r] else []

/-- Left-to-right scan of `re.findall(r"[a-zA-Z_][a-zA-Z0-9_]{2,}", text)`;
the first argument is the remaining input, the second the current word run
reversed. -/
def identTokensAux : List Char → List Char → List String
  | [], run => tokenFromRun run.reverse
  | c :: cs, run =>
    if isWordChar c then identTokensAux cs (c :: run)
    else tokenFromRun run.reverse ++ identTokensAux cs []

/-- `re.findall(r"[a-zA-Z_][a-zA-Z0-9_]{2,}", text)`. -/
def identTokens (s : String) : List String :=
  identTokensAux s.toList []

/-- The noise-word set of `TemporalMatcher._extract_keywords`. -/
def noiseWords : List String :=
  ["the", "and", "for", "with", "this", "that", "from", "import",
   "def", "class", "return", "self", "None", "True", "False",
   "async", "await", "function", "const", "let", "var"]

/-- `TemporalMatcher._extract_keywords`. -/
def extract_keywords (s : String) : Finset String :=
  (identTokens s).toFinset \ noiseWords.toFinset

/-- Split a character list at `/` separators. -/
def splitSlash : List Char → List (List Char)
  | [] => [[]]
  | '/' :: rest => [] :: splitSlash rest
  | c :: rest =>
    match splitSlash rest with
    | p :: ps => (c :: p) :: ps
    | [] => [[c]]

/-- `pathlib.Path(f).name` for POSIX paths: the last path segment, ignoring
empty and `.` segments. -/
def pathName (f : String) : String :=
  String.mk
    ((((splitSlash f.toList).filter
        (fun seg => seg != ([] : List Char) && seg != ['.'])).getLast?).getD [])

/-- The set `{Path(f).name for f in files if f}`. -/
def nameSet (files : List String) : Finset String :=
  ((files.filter (fun f => f != "")).map pathName).toFinset

/-- The diff text `" ".join(d.hunk for d in diffs if d.hunk)`. -/
def joinHunks (diffs : List FileDiffM) : String :=
  String.intercalate " " ((diffs.filter (fun d => d.hunk != "")).map (fun d => d.hunk))

/-- The `time_score` local of `_calculate_match_score` (lines 167–173):
inverse of the minimal absolute delta, 0 when no candidate change exists. -/
def time_score_code (convo : RawConversationM) (changes : List FileChangeEventM) : ℚ :=
  if changes ≠ [] then
    match (changes.map (fun c => |c.timestamp - convo.timestamp|)).min? with
    | some d => 1 / (1 + d / 10)
    | none => 0
  else 0

/-- The `file_score` local of `_calculate_match_score` (lines 176–182). -/
def file_score_code (convo : RawConversationM) (diffs : List FileDiffM) : ℚ :=
  if convo.context_files ≠ [] ∧ diffs ≠ [] then
    if nameSet convo.context_files ≠ ∅ ∧ nameSet (diffs.map (fun d => d.file_path)) ≠ ∅ then
      ((nameSet convo.context_files ∩ nameSet (diffs.map (fun d => d.file_path))).card : ℚ)
        / ((max (nameSet convo.context_files).card 1 : ℕ) : ℚ)
    else 0
  else 0

/-- The `keyword_score` local of `_calculate_match_score` (lines 185–192). -/
def keyword_score_code (convo : RawConversationM) (diffs : List FileDiffM) : ℚ :=
  if extract_keywords convo.prompt ≠ ∅ ∧ diffs ≠ [] then
    if extract_keywords (joinHunks diffs) ≠ ∅ then
      ((extract_keywords convo.prompt ∩ extract_keywords (joinHunks diffs)).card : ℚ)
        / ((max (extract_keywords convo.prompt).card 1 : ℕ) : ℚ)
    else 0
  else 0

/-- `TemporalMatcher._calculate_match_score` (weights 0.5 / 0.3 / 0.2 as
exact rationals). -/
def calculate_match_score (convo : RawConversationM) (diffs : List FileDiffM)
    (changes : List FileChangeEventM) : ℚ :=
  if diffs = [] ∧ changes = [] then 0
  else
    (1/2) * time_score_code convo changes + (3/10) * file_score_code convo diffs
      + (1/5) * keyword_score_code convo diffs

/-! Spec-side scoring, written from the claim:
`score = 0.5·timeScore + 0.3·fileScore + 0.2·keywordScore` with the three
components as stated there. -/

/-- Spec: `timeScore = 1/(1+Δ/10)`, Δ the minimum seconds between the
exchange timestamp and any candidate change; 0 if no candidates exist. -/
def timeScoreSpec (convo : RawConversationM) (changes : List FileChangeEventM) : ℚ :=
  if changes = [] then 0
  else
    match (changes.map (fun c => |c.timestamp - convo.timestamp|)).min? with
    | some d => 1 / (1 + d / 10)
    | none => 0

/-- Spec: `fileScore = |declaredContextFiles ∩ diffFileNames| /
max(1, |declaredContextFiles|)` on file names; 0 if either set is empty. -/
def fileScoreSpec (convo : RawConversationM) (diffs : List FileDiffM) : ℚ :=
  let C := nameSet convo.context_files
  let D := nameSet (diffs.map (fun d => d.file_path))
  if C = ∅ ∨ D = ∅ then 0
  else ((C ∩ D).card : ℚ) / ((max 1 C.card : ℕ) : ℚ)

/-- Spec: `keywordScore = |promptTokens ∩ diffHunkTokens| /
max(1, |promptTokens|)` over identifier-shaped tokens of length ≥ 3 with
the stop-word list removed; 0 if either side has no tokens. -/
def keywordScoreSpec (convo : RawConversationM) (diffs : List FileDiffM) : ℚ :=
  let P := extract_keywords convo.prompt
  let T := extract_keywords (joinHunks diffs)
  if P = ∅ ∨ T = ∅ then 0
  else ((P ∩ T).card : ℚ) / ((max 1 P.card : ℕ) : ℚ)

/-- Spec: the weighted sum. -/
def matchScoreSpec (convo : RawConversationM) (diffs : List FileDiffM)
    (changes : List FileChangeEventM) : ℚ :=
  (1/2) * timeScoreSpec convo changes + (3/10) * fileScoreSpec convo diffs
    + (1/5) * keywordScoreSpec convo diffs

lemma nameSet_nil : nameSet [] = ∅ := rfl

lemma keywords_empty : extract_keywords "" = ∅ := by decide

lemma joinHunks_nil : joinHunks [] = "" := rfl

lemma time_component_eq (convo : RawConversationM) (changes : List FileChangeEventM) :
    time_score_code convo changes = timeScoreSpec convo changes := by
  unfold time_score_code timeScoreSpec
  by_cases hc : changes = [] <;> simp [hc]

lemma file_component_eq (convo : RawConversationM) (diffs : List FileDiffM) :
    file_score_code convo diffs = fileScoreSpec convo diffs := by
  unfold file_score_code fileScoreSpec
  by_cases hcf : convo.context_files = []
  · simp [hcf, nameSet_nil]
  · by_cases hd : diffs = []
    · simp [hd, nameSet_nil]
    · rw [if_pos ⟨hcf, hd⟩]
      by_cases hC : nameSet convo.context_files = ∅
      · simp [hC]
      · by_cases hD : nameSet (diffs.map (fun d => d.file_path)) = ∅
        · simp [hD]
        · rw [if_pos ⟨hC, hD⟩, if_neg (by simp [hC, hD])]
          rw [Nat.max_comm]

lemma keyword_component_eq (convo : RawConversationM) (diffs : List FileDiffM) :
    keyword_score_code convo diffs = keywordScoreSpec convo diffs := by
  unfold keyword_score_code keywordScoreSpec
  by_cases hP : extract_keywords convo.prompt = ∅
  · simp [hP]
  · by_cases hd : diffs = []
    · rw [if_neg (by simp [hd])]
      rw [hd, joinHunks_nil, keywords_empty]
      simp
    · rw [if_pos ⟨hP, hd⟩]
      by_cases hT : extract_keywords (joinHunks diffs) = ∅
      · simp [hT]
      · rw [if_pos hT, if_neg (by simp [hP, hT]), Nat.max_comm]

/-- Claim C2: the score computed for every exchange equals the spec formula
`0.5·timeScore + 0.3·fileScore + 0.2·keywordScore` with the three
components as specified (in particular the early return for no diffs and no
candidate changes agrees with the formula, whose components all vanish
there). -/
theorem match_score_formula (convo : RawConversationM) (diffs : List FileDiffM)
    (changes : List FileChangeEventM) :
    calculate_match_score convo diffs changes = matchScoreSpec convo diffs changes := by
  unfold calculate_match_score matchScoreSpec
  by_cases h0 : diffs = [] ∧ changes = []
  · rw [if_pos h0]
    obtain ⟨hd, hc⟩ := h0
    rw [← time_component_eq, ← file_component_eq, ← keyword_component_eq, hd, hc]
    unfold time_score_code file_score_code keyword_score_code
    simp
  · rw [if_neg h0,
      time_component_eq, file_component_eq, keyword_component_eq]

/-! ## `core/matcher.py` : windowing -/

/-- `DEFAULT_WINDOW_SECONDS`. -/
def DEFAULT_WINDOW_SECONDS : ℚ := 90

/-- One entry of `TemporalMatcher._pending_prompts`. -/
structure PendingExchange where
  convo : RawConversationM
  source_ide : String
  project_id : String
  project_name : String
  deriving DecidableEq

/-- The mutable state of a `TemporalMatcher`. -/
structure MatcherState where
  window : ℚ
  pending : List PendingExchange
  file_changes : List FileChangeEventM
  deriving DecidableEq

/-- `TemporalMatcher._find_changes_in_window`. -/
def find_changes_in_window (st : MatcherState) (prompt_time : ℚ) :
    List FileChangeEventM :=
  st.file_changes.filter
    (fun c => decide (prompt_time ≤ c.timestamp ∧ c.timestamp ≤ prompt_time + st.window))

/-- Claim C5: the candidate changes for an exchange at time `t` are exactly
the history entries with timestamp in the closed interval `[t, t + W]`;
the default window is 90 s, a change at `t0+89s` is a candidate for an
exchange at `t0`, one at `t0+91s` is not. -/
theorem window_is_closed_interval :
    (∀ (st : MatcherState) (t : ℚ) (c : FileChangeEventM),
        c ∈ find_changes_in_window st t
          ↔ c ∈ st.file_changes ∧ t ≤ c.timestamp ∧ c.timestamp ≤ t + st.window)
    ∧ DEFAULT_WINDOW_SECONDS = 90
    ∧ (⟨"f", "modified", 89⟩ : FileChangeEventM)
        ∈ find_changes_in_window
            ⟨DEFAULT_WINDOW_SECONDS, [], [⟨"f", "modified", 89⟩, ⟨"g", "modified", 91⟩]⟩ 0
    ∧ (⟨"g", "modified", 91⟩ : FileChangeEventM)
        ∉ find_changes_in_window
            ⟨DEFAULT_WINDOW_SECONDS, [], [⟨"f", "modified", 89⟩, ⟨"g", "modified", 91⟩]⟩ 0 := by
  refine ⟨?_, rfl, ?_, ?_⟩
  · intro st t c
    simp [find_changes_in_window, List.mem_filter]
  · simp [find_changes_in_window, List.mem_filter, DEFAULT_WINDOW_SECONDS]
    norm_num
  · simp [find_changes_in_window, List.mem_filter, DEFAULT_WINDOW_SECONDS]
    norm_num

/-! ## `core/matcher.py` : derived fields

The regex substitutions of `_generate_clean_title` and `_extract_reasoning`
are embedded as explicit character scanners.  Scanners whose recursion
consumes a matched pattern carry a fuel argument, always instantiated with
the input length (each step consumes at least one character, so the fuel
never runs out; it only makes the recursion structural). -/

/-- `re.sub` of two literal alternatives (used for `</?user_query>` and
`</?system_reminder>`): removes leftmost non-overlapping occurrences. -/
def removeLitsF (p1 p2 : List Char) : Nat → List Char → List Char
  | 0, cs => cs
  | _ + 1, [] => []
  | fuel + 1, c :: cs =>
    if p1.isPrefixOf (c :: cs) then removeLitsF p1 p2 fuel ((c :: cs).drop p1.length)
    else if p2.isPrefixOf (c :: cs) then removeLitsF p1 p2 fuel ((c :: cs).drop p2.length)
    else c :: removeLitsF p1 p2 fuel cs

/-- Removes every occurrence of the two literal patterns, leftmost first. -/
def removeLits (p1 p2 : List Char) (cs : List Char) : List Char :=
  removeLitsF p1 p2 cs.length cs

/-- `re.sub(r"<[^>]{1,30}>", "", s)`: at a `<`, a run of 1–30 non-`>`
characters followed by `>` is removed; otherwise scanning advances one
character. -/
def removeTagsF : Nat → List Char → List Char
  | 0, cs => cs
  | _ + 1, [] => []
  | fuel + 1, c :: cs =>
    if c = '<' then
      let run := cs.takeWhile (fun d => d ≠ '>')
      if 1 ≤ run.length ∧ run.length ≤ 30 ∧ cs.drop run.length ≠ [] then
        removeTagsF fuel (cs.drop (run.length + 1))
      else c :: removeTagsF fuel cs
    else c :: removeTagsF fuel cs

def removeTags (cs : List Char) : List Char :=
  removeTagsF cs.length cs

/-- `re.sub(r"\s+", " ", s)`: collapse whitespace runs to single spaces.
The flag records whether the previous character was whitespace. -/
def collapseWsAux : Bool → List Char → List Char
  | _, [] => []
  | prevWs, c :: cs =>
    if pyIsSpace c then
      if prevWs then collapseWsAux true cs else ' ' :: collapseWsAux true cs
    else c :: collapseWsAux false cs

def collapseWs (cs : List Char) : List Char :=
  collapseWsAux false cs

/-- Python `s.lower()` (ASCII; the Chinese filler prefixes are unaffected
by lowercasing). -/
def pyToLower (s : String) : String :=
  String.mk (s.toList.map Char.toLower)

/-- The filler-prefix tuple of `_generate_clean_title`, in source order. -/
def fillerPrefixes : List String :=
  ["please ", "help me ", "can you ", "i want to ", "i need to ",
   "请", "帮我", "你能", "我想", "我需要", "你好 ", "嗨 "]

/-- The prefix loop with `break`: strip the first matching filler prefix
(matched against the lowercased string, removed from the original). -/
def stripFiller : List String → String → String
  | [], s => s
  | p :: ps, s =>
    if pyStartsWith (pyToLower s) p then String.mk (s.toList.drop p.toList.length)
    else stripFiller ps s

/-- `clean[0].upper() + clean[1:]` for non-empty `clean`. -/
def capitalizeFirst (s : String) : String :=
  match s.toList with
  | [] => ""
  | c :: cs => String.mk (c.toUpper :: cs)

/-- `clean[:77] + "..." if len(clean) > 80`. -/
def truncate80 (s : String) : String :=
  if 80 < s.toList.length then String.mk (s.toList.take 77) ++ "..." else s

/-- `TemporalMatcher._generate_clean_title`. -/
def generate_clean_title (prompt : String) : String :=
  let c0 := pyStrip prompt
  let c1 := String.mk (removeLits "<user_query>".toList "</user_query>".toList c0.toList)
  let c2 := String.mk
    (removeLits "<system_reminder>".toList "</system_reminder>".toList c1.toList)
  let c3 := String.mk (removeTags c2.toList)
  let c4 := pyStrip (String.mk (collapseWs c3.toList))
  let c5 := pyStrip (stripFiller fillerPrefixes c4)
  truncate80 (capitalizeFirst c5)

/-- Attempt of `\[Thinking:?\s*(.*?)\]` (IGNORECASE, DOTALL) at the current
position: `[`, then `thinking` case-insensitively, an optional `:`, greedy
whitespace, then a lazy capture up to the first `]`. -/
def tryThinkingAt (cs : List Char) : Option (List Char) :=
  match cs with
  | '[' :: rest =>
    if (rest.take 8).map Char.toLower = "thinking".toList then
      let afterKw := rest.drop 8
      let afterColon := match afterKw with
        | ':' :: r => r
        | r => r
      let afterWs := afterColon.dropWhile pyIsSpace
      let cap := afterWs.takeWhile (fun d => d ≠ ']')
      if afterWs.drop cap.length ≠ [] then some cap else none
    else none
  | _ => none

/-- `re.search` scan for the thinking block: try each position left to
right. -/
def findThinking : List Char → Option (List Char)
  | [] => none
  | c :: cs =>
    match tryThinkingAt (c :: cs) with
    | some cap => some cap
    | none => findThinking cs

/-- `clean.split("\n\n")`, at the character level. -/
def splitParas : List Char → List (List Char)
  | [] => [[]]
  | '\n' :: '\n' :: rest => [] :: splitParas rest
  | c :: rest =>
    match splitParas rest with
    | p :: ps => (c :: p) :: ps
    | [] => [[c]]

/-- The paragraph loop of `_extract_reasoning`: the first stripped paragraph
longer than 30 characters that does not open a fence / import / definition. -/
def firstGoodPara : List (List Char) → Option String
  | [] => none
  | p :: ps =>
    let para := String.mk (stripChars p)
    if 30 < para.toList.length ∧
        ¬(pyStartsWith para "```" ∨ pyStartsWith para "import " ∨
          pyStartsWith para "from " ∨ pyStartsWith para "def " ∨
          pyStartsWith para "class ") then
      some para
    else firstGoodPara ps

/-- `TemporalMatcher._extract_reasoning`. -/
def extract_reasoning (response : String) : String :=
  if response = "" then ""
  else
    let clean := pyStrip response
    match findThinking clean.toList with
    | some cap => String.mk ((stripChars cap).take 500)
    | none =>
      match firstGoodPara (splitParas clean.toList) with
      | some para => String.mk (para.toList.take 500)
      | none =>
        if 500 < clean.toList.length then String.mk (clean.toList.take 500) else clean

/-! ## `core/matcher.py` : `flush` -/

/-- The git-capture collaborator as `flush` consumes it: the results of
`get_combined_diff()` and `get_unstaged_diff()`. -/
structure GitCaptureM where
  combined : List FileDiffM
  unstaged : List FileDiffM
  deriving DecidableEq

/-- The output record (`core.models.PulseNode`) as built by `flush`; the
random `id` and the unused `token_usage` are omitted.  Python's
`list({...})` set construction for `affected_files` is modelled as
first-occurrence deduplication. -/
structure PulseNodeM where
  timestamp : ℚ
  project_id : String
  project_name : String
  ide : String
  model_name : String
  session_id : String
  raw_prompt : String
  clean_title : String
  context_files : List String
  ai_response : String
  reasoning : String
  diffs : List FileDiffM
  affected_files : List String
  status : String
  deriving DecidableEq

/-- Steps 2–3 of the flush loop: combined diff, else unstaged diff, else
`FileDiff`s synthesized from the windowed change events. -/
def acquireDiffs (gc : Option GitCaptureM) (matched : List FileChangeEventM) :
    List FileDiffM :=
  let diffs := match gc with
    | some g => if g.combined ≠ [] then g.combined else g.unstaged
    | none => []
  if diffs = [] ∧ matched ≠ [] then
    matched.map (fun c => ⟨c.file_path, "", c.change_type⟩)
  else diffs

/-- One iteration of the flush loop (steps 1–7 without the score, which the
loop computes and then discards). -/
def process_pending (st : MatcherState) (gc : Option GitCaptureM)
    (p : PendingExchange) : PulseNodeM :=
  let matched := find_changes_in_window st p.convo.timestamp
  let diffs := acquireDiffs gc matched
  { timestamp := p.convo.timestamp
    project_id := p.project_id
    project_name := p.project_name
    ide := p.source_ide
    model_name := p.convo.model_name
    session_id := p.convo.session_id
    raw_prompt := p.convo.prompt
    clean_title := generate_clean_title p.convo.prompt
    context_files := p.convo.context_files
    ai_response := p.convo.response
    reasoning := extract_reasoning p.convo.response
    diffs := diffs
    affected_files := (diffs.map (fun d => d.file_path)).eraseDups
    status := "completed" }

/-- The match score computed at step 4 of the flush loop for one pending
exchange (`matcher.py` line 102; the value is bound to a local and not
stored on the emitted node). -/
def process_pending_score (st : MatcherState) (gc : Option GitCaptureM)
    (p : PendingExchange) : ℚ :=
  let matched := find_changes_in_window st p.convo.timestamp
  let diffs := acquireDiffs gc matched
  calculate_match_score p.convo diffs matched

/-- `TemporalMatcher.flush`: drain the pending queue in arrival order, then
prune the change history to entries newer than `now - 2·window`. -/
def flush (st : MatcherState) (now : ℚ) (gc : Option GitCaptureM) :
    List PulseNodeM × MatcherState :=
  let nodes := st.pending.foldl (fun acc p => acc ++ [process_pending st gc p]) []
  (nodes,
   ⟨st.window, [],
    st.file_changes.filter (fun c => decide (now - st.window * 2 < c.timestamp))⟩)

lemma foldl_append_singleton {α β : Type} (f : α → β) (l : List α) :
    ∀ acc : List β, l.foldl (fun a x => a ++ [f x]) acc = acc ++ l.map f := by
  induction l with
  | nil => intro acc; simp
  | cons a t ih => intro acc; simp [ih]

/-- Claim C1: `flush` emits exactly one output record per pending exchange,
in arrival order and independently of the computed score; it clears the
queue, keeps the window, and only prunes the change history; an empty queue
yields an empty list. -/
theorem flush_one_node_per_exchange (st : MatcherState) (now : ℚ)
    (gc : Option GitCaptureM) :
    (flush st now gc).1 = st.pending.map (process_pending st gc)
    ∧ (flush st now gc).1.length = st.pending.length
    ∧ (flush st now gc).2.pending = []
    ∧ (flush st now gc).2.window = st.window
    ∧ (flush st now gc).2.file_changes
        = st.file_changes.filter (fun c => decide (now - st.window * 2 < c.timestamp))
    ∧ (st.pending = [] → (flush st now gc).1 = []) := by
  have hnodes : (flush st now gc).1 = st.pending.map (process_pending st gc) := by
    unfold flush
    rw [foldl_append_singleton]
    simp
  refine ⟨hnodes, ?_, rfl, rfl, rfl, ?_⟩
  · rw [hnodes, List.length_map]
  · intro hp
    rw [hnodes, hp]
    rfl

/-- Witness: flushing an empty queue returns the empty list. -/
theorem flush_one_node_per_exchange_witness :
    (flush ⟨90, [], []⟩ 0 none).1 = [] := by
  exact (flush_one_node_per_exchange ⟨90, [], []⟩ 0 none).2.2.2.2.2 rfl

/-! ## The end-to-end scenario (spec §8)

Exchange at `t0 = 0` with one file change at `t0 + 5 s` and the combined
git diff of `src/auth.js`. -/

def c8Convo : RawConversationM :=
  ⟨0, "please fix the login bug",
   "I updated auth.js to fix the null check. [Thinking: the null check was backwards]",
   "", "", ["auth.js"], "", ""⟩

def c8Entry : PendingExchange := ⟨c8Convo, "ClaudeCode", "demo", "demo"⟩

def c8Change : FileChangeEventM := ⟨"src/auth.js", "modified", 5⟩

def c8Diff : FileDiffM := ⟨"src/auth.js", "@@ ... - if (user) ... + if (!user) ...", "modified"⟩

def c8State : MatcherState := ⟨90, [c8Entry], [c8Change]⟩

def c8Gc : GitCaptureM := ⟨[c8Diff], []⟩

lemma c8_matched : find_changes_in_window c8State c8Entry.convo.timestamp = [c8Change] := by
  unfold find_changes_in_window c8State
  simp [List.filter, c8Change, c8Entry, c8Convo]
  norm_num

lemma c8_acquired : acquireDiffs (some c8Gc) [c8Change] = [c8Diff] := by decide

lemma c8_score : process_pending_score c8State (some c8Gc) c8Entry = 19/30 := by
  unfold process_pending_score
  simp only [c8_matched, c8_acquired]
  have ht : time_score_code c8Entry.convo [c8Change] = 2/3 := by
    unfold time_score_code c8Change c8Entry c8Convo
    simp
    norm_num
  have hf : file_score_code c8Entry.convo [c8Diff] = 1 := by
    unfold file_score_code
    have h1 : nameSet c8Entry.convo.context_files = {"auth.js"} := by decide
    have h2 : nameSet ([c8Diff].map (fun d => d.file_path)) = {"auth.js"} := by decide
    rw [h1, h2]
    rw [if_pos ⟨by decide, by decide⟩, if_pos ⟨by decide, by decide⟩]
    norm_num
  have hk : keyword_score_code c8Entry.convo [c8Diff] = 0 := by
    unfold keyword_score_code
    have hP : extract_keywords c8Entry.convo.prompt
        = {"please", "fix", "login", "bug"} := by decide
    have hT : extract_keywords (joinHunks [c8Diff]) = {"user"} := by decide
    rw [hP, hT]
    rw [if_pos ⟨by decide, by decide⟩, if_pos (by decide)]
    norm_num
    decide
  unfold calculate_match_score
  rw [if_neg (by simp), ht, hf, hk]
  norm_num

/-- Claim C8's score bound is false on the code: at the specified scenario
the computed match score is exactly 19/30 ≈ 0.633 (time 2/3, file 1,
keyword 0 — no prompt token appears in the hunk), which is not strictly
greater than 0.7. -/
theorem e2e_score_not_above_07 :
    process_pending_score c8State (some c8Gc) c8Entry = 19/30
    ∧ ¬(process_pending_score c8State (some c8Gc) c8Entry > 7/10) := by
  refine ⟨c8_score, ?_⟩
  rw [c8_score]
  norm_num

/-- Amended C8: the flushed record has
`affected_files = ["src/auth.js"]`, `clean_title = "Fix the login bug"`,
`reasoning = "the null check was backwards"`, and the match score computed
for the exchange is 19/30 — greater than 0.6 but not than 0.7 (the score
is computed during flush and then discarded; `PulseNode` stores no score
field). -/
theorem e2e_scenario_amended :
    (flush c8State 10 (some c8Gc)).1.map
        (fun n => (n.affected_files, n.clean_title, n.reasoning))
      = [(["src/auth.js"], "Fix the login bug", "the null check was backwards")]
    ∧ process_pending_score c8State (some c8Gc) c8Entry = 19/30
    ∧ ((19 : ℚ)/30 > 3/5) := by
  refine ⟨?_, c8_score, by norm_num⟩
  have hflush : (flush c8State 10 (some c8Gc)).1
      = [process_pending c8State (some c8Gc) c8Entry] := by
    simp [flush, show c8State.pending = [c8Entry] from rfl]
  rw [hflush]
  simp only [List.map_cons, List.map_nil]
  unfold process_pending
  simp only [c8_matched, c8_acquired]
  have htitle : generate_clean_title c8Entry.convo.prompt = "Fix the login bug" := by
    decide
  have hreason : extract_reasoning c8Entry.convo.response
      = "the null check was backwards" := by decide
  simp only [htitle, hreason]
  decide

/-! ## `adapters/pty_wrapper.py`

The proxy's capture state and the two byte-stream handlers
(`_process_output`, `_process_input` with `_flush_pending`).  Output chunks
arrive already decoded; ANSI stripping is applied per chunk as in
`_process_output`. -/

/-- A captured exchange as emitted by the proxy (`RawConversation` fields
the proxy fills). -/
structure RawExchangeM where
  timestamp : ℚ
  prompt : String
  response : String
  deriving DecidableEq

/-- The capture state: `_output_buffer`, `_current_prompt`,
`_last_prompt_time`. -/
structure PtyState where
  output_buffer : String
  current_prompt : String
  last_prompt_time : Option ℚ
  deriving DecidableEq

def initPtyState : PtyState := ⟨"", "", none⟩

/-- `re.sub(r"\x1b\[[0-9;]*[a-zA-Z]", "", text)`: remove CSI sequences
(fuel-based scan, fuel = input length). -/
def stripCsiF : Nat → List Char → List Char
  | 0, cs => cs
  | _ + 1, [] => []
  | fuel + 1, c :: cs =>
    if c = '\x1b' then
      match cs with
      | '[' :: rest =>
        let run := rest.takeWhile (fun d => d.isDigit || d = ';')
        match rest.drop run.length with
        | d :: after =>
          if d.isAlpha then stripCsiF fuel after else c :: stripCsiF fuel cs
        | [] => c :: stripCsiF fuel cs
      | _ => c :: stripCsiF fuel cs
    else c :: stripCsiF fuel cs

/-- `re.sub(r"\x1b\][^\x07]*\x07", "", text)`: remove OSC (title-setting)
sequences terminated by BEL. -/
def stripOscF : Nat → List Char → List Char
  | 0, cs => cs
  | _ + 1, [] => []
  | fuel + 1, c :: cs =>
    if c = '\x1b' then
      match cs with
      | ']' :: rest =>
        let run := rest.takeWhile (fun d => d ≠ '\x07')
        match rest.drop run.length with
        | _ :: after => stripOscF fuel after
        | [] => c :: stripOscF fuel cs
      | _ => c :: stripOscF fuel cs
    else c :: stripOscF fuel cs

/-- The ANSI cleaning of `_process_output` (both substitutions, in source
order). -/
def stripAnsi (s : String) : String :=
  let a := stripCsiF s.toList.length s.toList
  String.mk (stripOscF a.length a)

/-- `PTYWrapper._process_output`: append the cleaned chunk to the buffer. -/
def process_output (st : PtyState) (data : String) : PtyState :=
  ⟨st.output_buffer ++ stripAnsi data, st.current_prompt, st.last_prompt_time⟩

/-- `PTYWrapper._flush_pending`: emit the pending pair when a prompt is
waiting and the stripped buffer is significant (more than 20 characters);
the timestamp is the prompt-capture time (falling back to the current
time). -/
def flush_pending (st : PtyState) (now : ℚ) : PtyState × List RawExchangeM :=
  if st.current_prompt ≠ "" ∧ pyStrip st.output_buffer ≠ "" then
    (⟨"", "", st.last_prompt_time⟩,
     if 20 < (pyStrip st.output_buffer).length then
       [⟨st.last_prompt_time.getD now, st.current_prompt, pyStrip st.output_buffer⟩]
     else [])
  else (st, [])

/-- `PTYWrapper._process_input`: on a line terminator in the typed data,
if the captured output buffer is non-blank, flush the previous pair and
make the buffer's stripped content the new pending prompt. -/
def process_input (st : PtyState) (data : String) (now : ℚ) :
    PtyState × List RawExchangeM :=
  if data.toList.contains '\r' || data.toList.contains '\n' then
    if pyStrip st.output_buffer ≠ "" then
      (⟨"", pyStrip st.output_buffer, some now⟩, (flush_pending st now).2)
    else (st, [])
  else (st, [])

/-- Events seen by the relay loop, with the wall-clock time of input
events. -/
inductive PtyEvent where
  | output (data : String)
  | input (data : String) (now : ℚ)
  deriving DecidableEq

def ptyStep (st : PtyState) : PtyEvent → PtyState × List RawExchangeM
  | .output d => (process_output st d, [])
  | .input d now => process_input st d now

/-- Run a trace of events, collecting emitted exchanges in order. -/
def ptyRun : PtyState → List PtyEvent → PtyState × List RawExchangeM
  | st, [] => (st, [])
  | st, e :: es =>
    let r := ptyStep st e
    let rest := ptyRun r.1 es
    (rest.1, r.2 ++ rest.2)

/-- Claim C3 as stated is false: the new pending prompt is not the bytes
typed by the user since the last boundary — the code records no typed
bytes at all and instead promotes the captured child output.  After the
child emits `"I changed the configuration file"` and the user types
`"x\n"`, the pending prompt is that output, not `"x"` (nor `"x\n"`). -/
theorem pty_prompt_not_typed_bytes :
    ((ptyRun initPtyState
        [.output "I changed the configuration file", .input "x\n" 100]).1.current_prompt
      = "I changed the configuration file")
    ∧ (ptyRun initPtyState
        [.output "I changed the configuration file", .input "x\n" 100]).1.current_prompt
        ≠ "x"
    ∧ (ptyRun initPtyState
        [.output "I changed the configuration file", .input "x\n" 100]).1.current_prompt
        ≠ "x\n" := by
  refine ⟨by decide, by decide, by decide⟩

/-- Amended C3: at a line terminator with a non-blank captured output
buffer, the stripped buffer becomes both the response checked against the
previous prompt and the new pending prompt; exactly one `RawExchange` is
emitted iff a previous prompt waits and the stripped buffer exceeds 20
characters, carrying that prompt's capture timestamp.  A blank buffer
leaves the state unchanged.  Concretely, a 15-character response emits
nothing and a 25-character one emits one exchange stamped with the prompt
time. -/
theorem pty_boundary_amended :
    (∀ (st : PtyState) (data : String) (now : ℚ),
      (data.toList.contains '\r' || data.toList.contains '\n') = true →
      (pyStrip st.output_buffer = "" → process_input st data now = (st, []))
      ∧ (pyStrip st.output_buffer ≠ "" →
          (process_input st data now).1 = ⟨"", pyStrip st.output_buffer, some now⟩
          ∧ (process_input st data now).2
              = (if st.current_prompt ≠ "" ∧ 20 < (pyStrip st.output_buffer).length then
                  [⟨st.last_prompt_time.getD now, st.current_prompt,
                    pyStrip st.output_buffer⟩]
                else [])))
    ∧ (ptyRun initPtyState
        [.output "what is the configuration here", .input "\n" 1,
         .output "123456789012345", .input "\n" 9]).2 = []
    ∧ (ptyRun initPtyState
        [.output "what is the configuration here", .input "\n" 1,
         .output "1234567890123456789012345", .input "\n" 9]).2
        = [⟨1, "what is the configuration here", "1234567890123456789012345"⟩] := by
  refine ⟨?_, by decide, by decide⟩
  intro st data now hterm
  unfold process_input flush_pending
  rw [if_pos hterm]
  constructor
  · intro hblank
    rw [if_neg (by simp [hblank])]
  · intro hnb
    rw [if_pos hnb]
    refine ⟨rfl, ?_⟩
    by_cases hp : st.current_prompt = ""
    · rw [if_neg (by simp [hp]), if_neg (by simp [hp])]
    · rw [if_pos ⟨hp, hnb⟩]
      by_cases hlen : 20 < (pyStrip st.output_buffer).length
      · rw [if_pos hlen, if_pos ⟨hp, hlen⟩]
      · rw [if_neg hlen, if_neg (by simp [hlen])]

/-- Witness: a waiting prompt with a 36-character captured response emits
exactly one exchange stamped with the prompt-capture time. -/
theorem pty_boundary_amended_witness :
    (process_input
        ⟨"response text that is long enough ok", "prev prompt", some 3⟩ "x\n" 7).2
      = [⟨3, "prev prompt", "response text that is long enough ok"⟩] := by
  have h := (pty_boundary_amended.1
      ⟨"response text that is long enough ok", "prev prompt", some 3⟩ "x\n" 7
      (by decide)).2 (by decide)
  rw [h.2]
  decide

/-! ## `adapters/git_observer.py`

`GitDiffCapture` over an abstract repository layer whose operations may
fail with a `GIT_ERRORS` exception, modelled as `Except GitErr`.  Raw diff
texts are line lists; `staged + "\n" + unstaged` is the append of the two
line lists, and an empty text has line list `[""]`. -/

/-- An exception of the `GIT_ERRORS` tuple raised by the repository
layer. -/
structure GitErr where
  msg : String
  deriving DecidableEq

/-- The repository layer as `GitDiffCapture` calls it. -/
structure RepoIface where
  hasCommitsRaw : Except GitErr Bool
  diffHead : List String → Except GitErr (List String)
  diffCached : List String → Except GitErr (List String)
  diffWd : List String → Except GitErr (List String)
  diffNameOnlyCached : Except GitErr (List String)
  diffNameOnly : Except GitErr (List String)
  untrackedFiles : Except GitErr (List String)

/-- `GitDiffCapture._parse_unified_diff` differs from the core parser in
the path extraction (`line.split(" b/", 1)`) and the rename marker
(`"rename"`).  Scan for the first `" b/"` occurrence. -/
def scanSplitB : List Char → Option (List Char)
  | ' ' :: 'b' :: '/' :: rest => some rest
  | _ :: rest => scanSplitB rest
  | [] => none

/-- `parts[1] if len(parts) > 1 else ""` after `line.split(" b/", 1)`. -/
def extractPathSplit (l : String) : String :=
  match scanSplitB l.toList with
  | some cs => String.mk cs
  | none => ""

/-- One loop iteration of `GitDiffCapture._parse_unified_diff`. -/
def parseStepGit (st : ParseSt) (line : String) : ParseSt :=
  if isBoundaryLine line then
    ⟨closeFile st, extractPathSplit line, [], "modified"⟩
  else if pyStartsWith line "new file" then
    ⟨st.results, st.current_file, st.current_lines, "added"⟩
  else if pyStartsWith line "deleted file" then
    ⟨st.results, st.current_file, st.current_lines, "deleted"⟩
  else if pyStartsWith line "rename" then
    ⟨st.results, st.current_file, st.current_lines, "renamed"⟩
  else if isHunkLine line ∧ st.current_file ≠ "" then
    ⟨st.results, st.current_file, st.current_lines ++ [line], st.change_type⟩
  else st

/-- `GitDiffCapture._parse_unified_diff` over the line list. -/
def parseGitLines (lns : List String) : List FileDiffM :=
  if lns.all isBlankLine then []
  else closeFile (lns.foldl parseStepGit ⟨[], "", [], "modified"⟩)

/-- `GitDiffCapture._has_commits`: any raised error means `False`. -/
def _has_commits (r : RepoIface) : Bool :=
  match r.hasCommitsRaw with
  | .ok b => b
  | .error _ => false

/-- The body of `get_combined_diff` (inside its `try`): one `HEAD` diff
when commits exist; otherwise the staged diff and — only when a path
filter is present (`wd_args` is empty otherwise and the call is skipped,
leaving `unstaged = ""`) — the working-tree diff, concatenated with a
newline before parsing. -/
def get_combined_diff_body (r : RepoIface) (fnames : List String) :
    Except GitErr (List FileDiffM) :=
  if _has_commits r then do
    let raw ← r.diffHead fnames
    pure (parseGitLines raw)
  else do
    let staged ← r.diffCached fnames
    let unstaged ← if fnames ≠ [] then r.diffWd fnames else pure [""]
    pure (parseGitLines (staged ++ unstaged))

/-- `get_combined_diff`: any `GIT_ERRORS` exception degrades to `[]`. -/
def get_combined_diff (r : RepoIface) (fnames : List String) :
    Except GitErr (List FileDiffM) :=
  match get_combined_diff_body r fnames with
  | .error _ => .ok []
  | .ok v => .ok v

def get_unstaged_diff_body (r : RepoIface) : Except GitErr (List FileDiffM) := do
  let raw ← r.diffWd []
  pure (parseGitLines raw)

/-- `get_unstaged_diff`. -/
def get_unstaged_diff (r : RepoIface) : Except GitErr (List FileDiffM) :=
  match get_unstaged_diff_body r with
  | .error _ => .ok []
  | .ok v => .ok v

def get_staged_diff_body (r : RepoIface) : Except GitErr (List FileDiffM) := do
  let raw ← r.diffCached []
  pure (parseGitLines raw)

/-- `get_staged_diff`. -/
def get_staged_diff (r : RepoIface) : Except GitErr (List FileDiffM) :=
  match get_staged_diff_body r with
  | .error _ => .ok []
  | .ok v => .ok v

/-- Code-point lexicographic order on character lists (Python string
sorting). -/
def lexLe : List Char → List Char → Bool
  | [], _ => true
  | _ :: _, [] => false
  | a :: as, b :: bs =>
    if a.toNat = b.toNat then lexLe as bs else decide (a.toNat < b.toNat)

def insertSorted (x : String) : List String → List String
  | [] => [x]
  | y :: ys => if lexLe x.toList y.toList then x :: y :: ys else y :: insertSorted x ys

/-- Python `sorted`. -/
def sortStrings : List String → List String
  | [] => []
  | x :: xs => insertSorted x (sortStrings xs)

def get_dirty_files_body (r : RepoIface) : Except GitErr (List String) := do
  let staged ← r.diffNameOnlyCached
  let unstaged ← r.diffNameOnly
  let untracked ← r.untrackedFiles
  pure (sortStrings
    (((staged.filter (fun f => pyStrip f ≠ ""))
        ++ (unstaged.filter (fun f => pyStrip f ≠ ""))
        ++ untracked).eraseDups))

/-- `get_dirty_files`: sorted union of staged, unstaged and untracked
paths; errors degrade to `[]`. -/
def get_dirty_files (r : RepoIface) : Except GitErr (List String) :=
  match get_dirty_files_body r with
  | .error _ => .ok []
  | .ok v => .ok v

/-- Claim C9: the four diff-capture operations never propagate a
repository-layer exception — each always returns a value, and when its
body raises, the value is the empty list. -/
theorem diff_capture_never_raises (r : RepoIface) (fnames : List String) :
    (∃ v, get_combined_diff r fnames = .ok v)
    ∧ (∃ v, get_unstaged_diff r = .ok v)
    ∧ (∃ v, get_staged_diff r = .ok v)
    ∧ (∃ v, get_dirty_files r = .ok v)
    ∧ (∀ e, get_combined_diff_body r fnames = .error e → get_combined_diff r fnames = .ok [])
    ∧ (∀ e, get_unstaged_diff_body r = .error e → get_unstaged_diff r = .ok [])
    ∧ (∀ e, get_staged_diff_body r = .error e → get_staged_diff r = .ok [])
    ∧ (∀ e, get_dirty_files_body r = .error e → get_dirty_files r = .ok []) := by
  refine ⟨?_, ?_, ?_, ?_, ?_, ?_, ?_, ?_⟩
  · unfold get_combined_diff
    cases h : get_combined_diff_body r fnames <;> simp
  · unfold get_unstaged_diff
    cases h : get_unstaged_diff_body r <;> simp
  · unfold get_staged_diff
    cases h : get_staged_diff_body r <;> simp
  · unfold get_dirty_files
    cases h : get_dirty_files_body r <;> simp
  · intro e he
    unfold get_combined_diff
    rw [he]
  · intro e he
    unfold get_unstaged_diff
    rw [he]
  · intro e he
    unfold get_staged_diff
    rw [he]
  · intro e he
    unfold get_dirty_files
    rw [he]

/-- A repository whose every operation raises. -/
def errRepo : RepoIface :=
  ⟨.error ⟨"boom"⟩, fun _ => .error ⟨"boom"⟩, fun _ => .error ⟨"boom"⟩,
   fun _ => .error ⟨"boom"⟩, .error ⟨"boom"⟩, .error ⟨"boom"⟩, .error ⟨"boom"⟩⟩

/-- Witness: on an always-raising repository every operation returns the
empty list. -/
theorem diff_capture_never_raises_witness :
    get_combined_diff errRepo [] = .ok [] ∧ get_dirty_files errRepo = .ok [] := by
  have h := diff_capture_never_raises errRepo []
  exact ⟨h.2.2.2.2.1 ⟨"boom"⟩ rfl, h.2.2.2.2.2.2.2 ⟨"boom"⟩ rfl⟩

/-! ### The zero-commit path of `get_combined_diff` (claim C7) -/

def stagedLines : List String :=
  ["diff --git a/x.py b/x.py", "@@ -1 +1 @@", "-a", "+b"]

def wdLines : List String :=
  ["diff --git a/y.py b/y.py", "@@ -1 +1 @@", "-c", "+d"]

/-- A zero-commit repository with both a staged diff (`x.py`) and an
unstaged working-tree diff (`y.py`). -/
def zeroCommitRepo : RepoIface :=
  ⟨.ok false, fun _ => .ok [], fun _ => .ok stagedLines, fun _ => .ok wdLines,
   .ok [], .ok [], .ok []⟩

/-- Claim C7 fails on the code: in a zero-commit repository with no path
filter, the working-tree diff call is skipped (`wd_args` is empty, so
`unstaged = ""`), and only the staged entries are returned — while parsing
the concatenation of both texts, as the claim and the function's own
comment (`Empty repo: get staged and unstaged separately`) prescribe,
would also return the unstaged entry.  With a non-empty path filter the
working-tree diff is obtained. -/
theorem combined_diff_drops_unstaged_without_filter :
    get_combined_diff zeroCommitRepo []
      = .ok [⟨"x.py", "@@ -1 +1 @@\n-a\n+b", "modified"⟩]
    ∧ parseGitLines (stagedLines ++ wdLines)
      = [⟨"x.py", "@@ -1 +1 @@\n-a\n+b", "modified"⟩,
         ⟨"y.py", "@@ -1 +1 @@\n-c\n+d", "modified"⟩]
    ∧ get_combined_diff zeroCommitRepo ["y.py"]
      = .ok [⟨"x.py", "@@ -1 +1 @@\n-a\n+b", "modified"⟩,
             ⟨"y.py", "@@ -1 +1 @@\n-c\n+d", "modified"⟩] := by
  refine ⟨?_, by decide, ?_⟩
  · have h : get_combined_diff_body zeroCommitRepo []
        = .ok [⟨"x.py", "@@ -1 +1 @@\n-a\n+b", "modified"⟩] := by
      unfold get_combined_diff_body
      rw [if_neg (by decide)]
      show Except.ok (parseGitLines (stagedLines ++ [""])) = _
      rw [show parseGitLines (stagedLines ++ [""])
          = [⟨"x.py", "@@ -1 +1 @@\n-a\n+b", "modified"⟩] from by decide]
    unfold get_combined_diff
    rw [h]
  · have h : get_combined_diff_body zeroCommitRepo ["y.py"]
        = .ok [⟨"x.py", "@@ -1 +1 @@\n-a\n+b", "modified"⟩,
               ⟨"y.py", "@@ -1 +1 @@\n-c\n+d", "modified"⟩] := by
      unfold get_combined_diff_body
      rw [if_neg (by decide)]
      show Except.ok (parseGitLines (stagedLines ++ wdLines)) = _
      rw [show parseGitLines (stagedLines ++ wdLines)
          = [⟨"x.py", "@@ -1 +1 @@\n-a\n+b", "modified"⟩,
             ⟨"y.py", "@@ -1 +1 @@\n-c\n+d", "modified"⟩] from by decide]
    unfold get_combined_diff
    rw [h]

end OpenBBox
